import Mathlib

/-!
Verification of the Resume-analyzer repository against its specification.

The repository consists of four Streamlit page variants:
`app2.py`, `app3.py`, `appfinal.py` and `main2.py`.  The definitions below are
shallow embeddings of the pure logic of those files: percentage extraction via
the regular expression `(\d+)%`, prompt construction, dispatch over AI
backends, document-text extraction, score statistics, and the session score
history.  A backend call is modelled as a function from the prompt string to
`Except String String` (an exception or the response text); Streamlit
`st.error` display is modelled by an explicit outcome type.
-/

/-! Percentage extraction.

Embeds `extract_percentage` (app2.py lines 82-86, app3.py lines 95-96) and
`extract_match_percentage` (appfinal.py lines 62-64): `re.search(r"(\d+)%", text)`
returns the digit run of the leftmost match of one-or-more digits followed by
a literal percent sign; the functions return that run, or the marker "N/A"
when there is no match.  The class `\d` is modelled by `Char.isDigit`; the
texts this application scans are ASCII model responses. -/

/-- digitRun splits a character list into its leading maximal run of digits
and the remainder, mirroring how the greedy `\d+` consumes characters. -/
def digitRun : List Char → List Char × List Char
  | [] => ([], [])
  | c :: cs =>
    if c.isDigit then (c :: (digitRun cs).1, (digitRun cs).2)
    else ([], c :: cs)

/-- firstPercentMatch scans left to right for the leftmost position where a
digit run is immediately followed by a percent sign, returning that digit
run, exactly as `re.search(r"(\d+)%", text)` does. -/
def firstPercentMatch : List Char → Option (List Char)
  | [] => none
  | c :: cs =>
    if c.isDigit then
      if (digitRun cs).2.head? = some '%' then some (c :: (digitRun cs).1)
      else firstPercentMatch cs
    else firstPercentMatch cs

/-- extract_percentage embeds `extract_percentage` of app2.py/app3.py and
`extract_match_percentage` of appfinal.py: the digit run of the first
`<digits>%` match, or the string "N/A" when there is none. -/
def extract_percentage (t : String) : String :=
  match firstPercentMatch t.data with
  | some ds => String.mk ds
  | none => "N/A"

/-- digitsToNat is the numeric value of a digit run, as Python `int()` reads
a string of ASCII digits (app3.py line 127 applies `int` to the match). -/
def digitsToNat (ds : List Char) : Nat :=
  ds.foldl (fun a c => 10 * a + (c.toNat - 48)) 0

/-- extractedPercentageNat is the `extracted_percentage` field of an
analysis result: the numeric value of the first digit run before a percent
sign when one exists, absent otherwise. -/
def extractedPercentageNat (t : String) : Option Nat :=
  (firstPercentMatch t.data).map digitsToNat

/-! Specification-side predicates about `<digits>%` occurrences, used to
state what the extraction functions compute. -/

/-- PercentOcc l pre ds suf says the text l decomposes as pre, then the
nonempty digit run ds, then a percent sign, then suf. -/
def PercentOcc (l pre ds suf : List Char) : Prop :=
  l = pre ++ ds ++ '%' :: suf ∧ ds ≠ [] ∧ ∀ c ∈ ds, c.isDigit = true

/-- HasPercent l says the text l contains some digits-then-percent substring. -/
def HasPercent (l : List Char) : Prop :=
  ∃ pre ds suf, PercentOcc l pre ds suf

/-- FirstPercent l ds says ds is the digit run of the first digits-then-percent
occurrence in l: an occurrence whose preceding text ends in a non-digit
(so the run is maximal) and whose start position is minimal among all
occurrences. -/
def FirstPercent (l ds : List Char) : Prop :=
  ∃ pre suf, PercentOcc l pre ds suf ∧
    (∀ c, pre.getLast? = some c → c.isDigit = false) ∧
    ∀ pre2 ds2 suf2, PercentOcc l pre2 ds2 suf2 → pre.length ≤ pre2.length

/-! Languages and prompt construction.

app3.py's SUPPORTED_LANGUAGES maps en/hi/ru/es/fr/de to names;
appfinal.py's LANGUAGES maps en/hi/ru/es/fr.  Prompt construction embeds the
f-strings of `get_gemini_response` (app3.py lines 85-93),
`analyze_with_gemini` (appfinal.py lines 49-60) and `get_gemini_response`
(app2.py lines 54-66). -/

inductive App3Lang where
  | en
  | hi
  | ru
  | es
  | fr
  | de
  deriving DecidableEq

/-- app3LangName is app3.py's SUPPORTED_LANGUAGES table. -/
def app3LangName : App3Lang → String
  | .en => "English"
  | .hi => "Hindi"
  | .ru => "Russian"
  | .es => "Spanish"
  | .fr => "French"
  | .de => "German"

inductive FinalLang where
  | en
  | hi
  | ru
  | es
  | fr
  deriving DecidableEq

/-- finalLangName is appfinal.py's LANGUAGES table. -/
def finalLangName : FinalLang → String
  | .en => "English"
  | .hi => "Hindi"
  | .ru => "Russian"
  | .es => "Spanish"
  | .fr => "French"

/-- app3_respond_suffix embeds the conditional interpolation of app3.py line
91: a respond-in-language instruction when the language is not English, the
empty string otherwise. -/
def app3_respond_suffix (lang : App3Lang) : String :=
  if lang ≠ App3Lang.en then "Respond in " ++ app3LangName lang else ""

/-- app3_full_prompt is the f-string of app3.py lines 87-92 sent to the model. -/
def app3_full_prompt (jd rt task : String) (lang : App3Lang) : String :=
  "\n    Job Description: " ++ jd ++ "\n    Resume: " ++ rt ++ "\n    Task: " ++ task ++
    "\n    " ++ app3_respond_suffix lang ++ "\n    "

/-- appfinal_lang_instruction embeds appfinal.py line 53. -/
def appfinal_lang_instruction (lang : FinalLang) : String :=
  if lang ≠ FinalLang.en then "Respond in " ++ finalLangName lang ++ "." else ""

/-- appfinal_full_prompt is the f-string of appfinal.py lines 55-59. -/
def appfinal_full_prompt (jd rt task : String) (lang : FinalLang) : String :=
  "\n    Job Description: " ++ jd ++ "\n    Resume: " ++ rt ++ "\n    Task: " ++ task ++ " " ++
    appfinal_lang_instruction lang ++ "\n    "

/-- app2_full_prompt is the f-string of app2.py lines 57-66. -/
def app2_full_prompt (jd rt task : String) : String :=
  "\n    Job Description:\n    " ++ jd ++ "\n\n    Resume:\n    " ++ rt ++
    "\n\n    Task:\n    " ++ task ++ "\n    "

/-! Gemini dispatch functions.  The single `model.generate_content` call is
modelled by applying `backend` to the built prompt; `backend` returns either
the response text or the raised exception's message. -/

/-- app2_get_gemini_response embeds app2.py lines 54-79: the backend call is
wrapped in try/except, an exception is converted to the displayable string
"Error: ...", an empty response text yields the sentinel
"No response generated.", and percentage extraction is applied only to a
nonempty text when requested. -/
def app2_get_gemini_response (jd rt task : String) (extractPercent : Bool)
    (backend : String → Except String String) : String :=
  match backend (app2_full_prompt jd rt task) with
  | .error e => "Error: " ++ e
  | .ok t =>
    if t = "" then "No response generated."
    else if extractPercent then extract_percentage t
    else t

/-- app3_get_gemini_response embeds app3.py lines 85-93: there is no
try/except, so a backend exception propagates to the caller (the `Except`
stays in the error case); on success the text or its extracted percentage is
returned. -/
def app3_get_gemini_response (jd rt task : String) (lang : App3Lang) (extractPercent : Bool)
    (backend : String → Except String String) : Except String String :=
  (backend (app3_full_prompt jd rt task lang)).map
    (fun t => if extractPercent then extract_percentage t else t)

/-- appfinal_analyze_with_gemini embeds appfinal.py lines 49-60: no
try/except, the backend's text or exception is returned unchanged. -/
def appfinal_analyze_with_gemini (jd rt task : String) (lang : FinalLang)
    (backend : String → Except String String) : Except String String :=
  backend (appfinal_full_prompt jd rt task lang)

/-! main2.py multi-provider dispatch. -/

inductive Provider where
  | gemini
  | chatgpt
  | claude
  | cohere
  | huggingface
  deriving DecidableEq

/-- main2_generate_ai_response embeds the if/elif dispatch chain of
main2.py lines 121-132 (inside `generate_ai_response`): the first component
is the displayed response and the second records, in order, which backends
were called during the invocation (the instrumentation needed to state that
no outbound call is made on an invalid selection). -/
def main2_generate_ai_response (aiChoice : String) (backend : Provider → String) :
    String × List Provider :=
  if aiChoice = "Gemini" then (backend Provider.gemini, [Provider.gemini])
  else if aiChoice = "ChatGPT" then (backend Provider.chatgpt, [Provider.chatgpt])
  else if aiChoice = "Claude" then (backend Provider.claude, [Provider.claude])
  else if aiChoice = "Cohere" then (backend Provider.cohere, [Provider.cohere])
  else if aiChoice = "HuggingFace" then (backend Provider.huggingface, [Provider.huggingface])
  else ("❌ Invalid AI Selection", [])

/-! Document text extraction. -/

/-- pyJoin models Python's `sep.join(parts)`: the parts interleaved with the
separator, empty for an empty list. -/
def pyJoin (sep : String) : List String → String
  | [] => ""
  | [s] => s
  | s :: s2 :: rest => s ++ sep ++ pyJoin sep (s2 :: rest)

/-- app2_extract_text_from_pdf embeds app2.py lines 18-24: a running string
accumulates `page.extract_text() or ""` over the pages in order.  A page is
`none` when its extraction fails (PyPDF2 returns a falsy value). -/
def app2_extract_text_from_pdf (pages : List (Option String)) : String :=
  pages.foldl (fun text p => text ++ p.getD "") ""

/-- app3_extract_text_from_pdf embeds app3.py lines 28-30:
`"".join(page.extract_text() or "" for page in reader.pages)`. -/
def app3_extract_text_from_pdf (pages : List (Option String)) : String :=
  pyJoin "" (pages.map (fun p => p.getD ""))

/-- appfinal_extract_pdf_text embeds appfinal.py lines 31-33:
`" ".join(page.extract_text() or "" for page in reader.pages)` — note the
single-space separator. -/
def appfinal_extract_pdf_text (pages : List (Option String)) : String :=
  pyJoin " " (pages.map (fun p => p.getD ""))

/-- ExtractOutcome models what the user-facing file-processing code does:
either a successfully extracted text, or an inline `st.error` message shown
at the call site while the page keeps running. -/
inductive ExtractOutcome where
  | ok (text : String)
  | displayedError (msg : String)
  deriving DecidableEq

/-- app2_extract_text_from_file embeds app2.py lines 35-51: a supported
extension dispatches to the matching extractor inside try/except, converting
an exception into a displayed message; an unsupported extension is reported
without calling any extractor.  The chosen extractor's outcome is abstracted
as parse. -/
def app2_extract_text_from_file (fileType : String) (parse : Except String String) :
    ExtractOutcome :=
  if fileType = "pdf" ∨ fileType = "docx" ∨ fileType = "txt" then
    match parse with
    | .ok t => .ok t
    | .error e => .displayedError ("Error processing file: " ++ e)
  else .displayedError ("Unsupported file type: " ++ fileType)

/-- appfinal_process_file embeds appfinal.py lines 41-46: no try/except here;
an unsupported extension raises ValueError (an error result). -/
def appfinal_process_file (ext : String) (parse : Except String String) :
    Except String String :=
  if ext = "pdf" ∨ ext = "docx" ∨ ext = "txt" then parse
  else .error ("Unsupported file type: " ++ ext)

/-- appfinal_upload_outcome embeds the Upload page of appfinal.py lines
114-119: `process_file` runs inside try/except and an exception becomes the
displayed message "Error: ...". -/
def appfinal_upload_outcome (ext : String) (parse : Except String String) :
    ExtractOutcome :=
  match appfinal_process_file ext parse with
  | .ok t => .ok t
  | .error e => .displayedError ("Error: " ++ e)

/-! Plain-text (UTF-8) extraction.  `extract_text_from_txt` (app2.py lines
31-33, app3.py lines 35-36) and `extract_txt_text` (appfinal.py lines 38-39)
are `uploaded_file.read().decode("utf-8")`.  Bytes are modelled as naturals
below 256 and decoded strictly, as Python's utf-8 codec does: truncated
sequences, stray continuation bytes, overlong forms, surrogates and values
above 0x10FFFF are rejected. -/

/-- utf8EncodeChar is the UTF-8 byte sequence of a Unicode scalar value. -/
def utf8EncodeChar (c : Nat) : List Nat :=
  if c < 0x80 then [c]
  else if c < 0x800 then [0xC0 + c / 64, 0x80 + c % 64]
  else if c < 0x10000 then [0xE0 + c / 4096, 0x80 + c / 64 % 64, 0x80 + c % 64]
  else [0xF0 + c / 262144, 0x80 + c / 4096 % 64, 0x80 + c / 64 % 64, 0x80 + c % 64]

/-- utf8Encode is the UTF-8 byte sequence of a sequence of scalar values. -/
def utf8Encode : List Nat → List Nat
  | [] => []
  | c :: cs => utf8EncodeChar c ++ utf8Encode cs

/-- utf8DecodeAux is the byte-at-a-time state machine of strict UTF-8
decoding.  The state is `none` between characters, or `some (acc, k, lo)`
inside a multi-byte sequence: acc is the scalar value accumulated so far, k
the number of continuation bytes still expected, and lo the smallest scalar
value the finished sequence may legally denote (rejecting overlong forms);
surrogates and values above 0x10FFFF are rejected when the sequence
completes.  `none` as a result models the raised UnicodeDecodeError of
Python's `bytes.decode("utf-8")`: truncated sequences, stray continuation
bytes, overlong forms, surrogates and out-of-range values all fail. -/
def utf8DecodeAux : Option (Nat × Nat × Nat) → List Nat → Option (List Nat)
  | none, [] => some []
  | some _, [] => none
  | none, b :: bs =>
    if b < 0x80 then (utf8DecodeAux none bs).map (fun r => b :: r)
    else if b < 0xC2 then none
    else if b < 0xE0 then utf8DecodeAux (some (b - 0xC0, 1, 0x80)) bs
    else if b < 0xF0 then utf8DecodeAux (some (b - 0xE0, 2, 0x800)) bs
    else if b < 0xF5 then utf8DecodeAux (some (b - 0xF0, 3, 0x10000)) bs
    else none
  | some (acc, k, lo), b :: bs =>
    if 0x80 ≤ b ∧ b < 0xC0 then
      if k = 1 then
        if lo ≤ acc * 64 + (b - 0x80) ∧ acc * 64 + (b - 0x80) < 0x110000 ∧
            ¬(0xD800 ≤ acc * 64 + (b - 0x80) ∧ acc * 64 + (b - 0x80) < 0xE000) then
          (utf8DecodeAux none bs).map (fun r => (acc * 64 + (b - 0x80)) :: r)
        else none
      else utf8DecodeAux (some (acc * 64 + (b - 0x80), k - 1, lo)) bs
    else none

/-- utf8Decode is strict UTF-8 decoding of a byte list into scalar values,
the behavior of Python's `bytes.decode("utf-8")`. -/
def utf8Decode (bytes : List Nat) : Option (List Nat) :=
  utf8DecodeAux none bytes

/-- app2_extract_text_from_txt embeds app2.py lines 31-33: the raw bytes
decoded as UTF-8 (scalar values stand for the characters of the resulting
string). -/
def app2_extract_text_from_txt (bytes : List Nat) : Option (List Nat) :=
  utf8Decode bytes

/-- appfinal_extract_txt_text embeds appfinal.py lines 38-39, identical
decode of the raw bytes. -/
def appfinal_extract_txt_text (bytes : List Nat) : Option (List Nat) :=
  utf8Decode bytes

/-- strScalars is the scalar-value sequence of a Lean string, connecting
`String` to the byte-level decoder. -/
def strScalars (s : String) : List Nat :=
  s.data.map (fun c => c.toNat)

/-! Score statistics.  numpy's mean/median are embedded over the rationals;
`np.std` is the square root of the variance component recorded here (the
square root, an irrational number, does not change whether or for which
lists the statistics are computed).  On an empty array `np.max`/`np.min`
raise ValueError, which makes the whole statistics computation fail: that
failure is the `none` case, reached exactly when `List.max?`/`List.min?`
return `none`. -/

/-- insertSorted inserts into an ascending list. -/
def insertSorted (x : Nat) : List Nat → List Nat
  | [] => [x]
  | y :: ys => if x ≤ y then x :: y :: ys else y :: insertSorted x ys

/-- sortAsc sorts ascending, as numpy does before taking a median. -/
def sortAsc (l : List Nat) : List Nat :=
  l.foldr insertSorted []

/-- npMean is `np.mean` over the rationals. -/
def npMean (scores : List Nat) : ℚ :=
  (scores.sum : ℚ) / (scores.length : ℚ)

/-- npMedian is `np.median`: middle element of the sorted list, or the
average of the two middle elements for an even length. -/
def npMedian (scores : List Nat) : ℚ :=
  if scores.length % 2 = 1 then ((sortAsc scores).getD (scores.length / 2) 0 : Nat)
  else
    (((sortAsc scores).getD (scores.length / 2 - 1) 0 : Nat) +
      ((sortAsc scores).getD (scores.length / 2) 0 : Nat)) / 2

/-- npVariance is the square of `np.std`. -/
def npVariance (scores : List Nat) : ℚ :=
  (scores.map (fun x => ((x : ℚ) - npMean scores) ^ 2)).sum / (scores.length : ℚ)

/-- calculate_match_stats embeds app3.py lines 56-61: mean, median, variance
(for the standard deviation), max and min of the score list; `none` models
the ValueError numpy raises from `np.max`/`np.min` on an empty array. -/
def calculate_match_stats (scores : List Nat) : Option (ℚ × ℚ × ℚ × Nat × Nat) :=
  match scores.max?, scores.min? with
  | some mx, some mn => some (npMean scores, npMedian scores, npVariance scores, mx, mn)
  | _, _ => none

/-- score_stats embeds `ResumeInsights.score_stats` of appfinal.py lines
76-83: average, median and the min/max pair of the range string; `none`
models the ValueError on an empty array. -/
def score_stats (scores : List Nat) : Option (ℚ × ℚ × Nat × Nat) :=
  match scores.min?, scores.max? with
  | some mn, some mx => some (npMean scores, npMedian scores, mn, mx)
  | _, _ => none

/-- advanced_analysis_stats embeds the Advanced Analysis expander of
appfinal.py lines 221-229: statistics are computed only under the
`if st.session_state.scores:` guard, that is, only for a nonempty history. -/
def advanced_analysis_stats (scores : List Nat) : Option (ℚ × ℚ × Nat × Nat) :=
  if scores.isEmpty then none else score_stats scores

/-! Session score history.

app3.py line 102 initializes `historical_scores` with
`list(np.random.randint(50, 95, 10))` — ten pseudorandom integers, each at
least 50 and below 95, modelled as a draw function; line 127 appends
`int(match)` where match is the extracted percentage string (Python `int`
succeeds exactly when extraction found a digit run).  appfinal.py line 90
initializes `scores = []` and line 154 appends the extracted percentage.
In both files `.append` is the only operation ever applied to the list. -/

/-- app3_initial_scores is app3.py's initial history for a given random draw. -/
def app3_initial_scores (draw : Fin 10 → Nat) : List Nat :=
  List.ofFn draw

/-- App3HistReachable draw s holds when s is a state of app3.py's
`historical_scores` reachable during a session whose initialization drew
draw: the initial list, extended by appending extracted percentage values. -/
inductive App3HistReachable (draw : Fin 10 → Nat) : List Nat → Prop where
  | init : App3HistReachable draw (app3_initial_scores draw)
  | append (s : List Nat) (t : String) (n : Nat) :
      App3HistReachable draw s → extractedPercentageNat t = some n →
      App3HistReachable draw (s ++ [n])

/-- FinalScoresReachable s holds when s is a reachable state of appfinal.py's
`st.session_state.scores`: initially empty, extended only by appending
extracted percentage values. -/
inductive FinalScoresReachable : List Nat → Prop where
  | init : FinalScoresReachable []
  | append (s : List Nat) (t : String) (n : Nat) :
      FinalScoresReachable s → extractedPercentageNat t = some n →
      FinalScoresReachable (s ++ [n])

/-! Helper lemmas about digit runs and the regex scan. -/

theorem digitRun_append (l : List Char) : (digitRun l).1 ++ (digitRun l).2 = l := by
  induction l with
  | nil => rfl
  | cons c cs ih =>
    by_cases h : c.isDigit = true
    · simp [digitRun, h, ih]
    · simp [digitRun, h]

theorem digitRun_digits (l : List Char) : ∀ c ∈ (digitRun l).1, c.isDigit = true := by
  induction l with
  | nil => simp [digitRun]
  | cons c cs ih =>
    by_cases h : c.isDigit = true
    · simp only [digitRun, if_pos h]
      intro x hx
      rcases List.mem_cons.mp hx with hx | hx
      · exact hx ▸ h
      · exact ih x hx
    · simp [digitRun, h]

theorem digitRun_of_digits (ds rest : List Char) (hds : ∀ c ∈ ds, c.isDigit = true)
    (hrest : ∀ c cs2, rest = c :: cs2 → c.isDigit = false) :
    digitRun (ds ++ rest) = (ds, rest) := by
  induction ds with
  | nil =>
    cases rest with
    | nil => rfl
    | cons r rs =>
      have hr := hrest r rs rfl
      simp [digitRun, hr]
  | cons d ds2 ih =>
    have hd : d.isDigit = true := hds d (List.mem_cons_self d ds2)
    have ih2 := ih (fun c hc => hds c (List.mem_cons_of_mem d hc))
    simp [digitRun, hd, ih2]

theorem percent_not_digit : ('%' : Char).isDigit = false := by decide

theorem firstPercentMatch_some (l ds : List Char) (h : firstPercentMatch l = some ds) :
    FirstPercent l ds := by
  induction l with
  | nil => simp [firstPercentMatch] at h
  | cons c cs ih =>
    by_cases hd : c.isDigit = true
    · by_cases hp : (digitRun cs).2.head? = some '%'
      · rw [firstPercentMatch, if_pos hd, if_pos hp] at h
        have hds : ds = c :: (digitRun cs).1 := by
          injection h with h2
          exact h2.symm
        obtain ⟨tail, htail⟩ : ∃ tail, (digitRun cs).2 = '%' :: tail := by
          cases he : (digitRun cs).2 with
          | nil => rw [he] at hp; simp at hp
          | cons x xs =>
            rw [he] at hp
            simp at hp
            exact ⟨xs, by rw [hp]⟩
        have hcs : (digitRun cs).1 ++ '%' :: tail = cs := by
          rw [← htail]; exact digitRun_append cs
        refine ⟨[], tail, ⟨?_, by simp [hds], ?_⟩, by simp, fun pre2 ds2 suf2 _ => Nat.zero_le _⟩
        · rw [hds, List.nil_append, List.cons_append, hcs]
        · intro x hx
          rw [hds] at hx
          rcases List.mem_cons.mp hx with hx | hx
          · exact hx ▸ hd
          · exact digitRun_digits cs x hx
      · rw [firstPercentMatch, if_pos hd, if_neg hp] at h
        obtain ⟨pre, suf, ⟨heq, hne, hdig⟩, hlast, hmin⟩ := ih h
        have hprene : pre ≠ [] := by
          intro hpre
          rw [hpre, List.nil_append] at heq
          have hdr : digitRun cs = (ds, '%' :: suf) :=
            heq ▸ digitRun_of_digits ds ('%' :: suf) hdig
              (by
                intro x xs hx
                have hx1 : x = '%' := by
                  simp only [List.cons.injEq] at hx
                  exact hx.1.symm
                rw [hx1]; exact percent_not_digit)
          rw [hdr] at hp
          simp at hp
        refine ⟨c :: pre, suf, ⟨by simp [heq], hne, hdig⟩, ?_, ?_⟩
        · intro x hx
          cases pre with
          | nil => exact absurd rfl hprene
          | cons p ps =>
            rw [List.getLast?_cons_cons] at hx
            exact hlast x hx
        · intro pre2 ds2 suf2 hocc2
          obtain ⟨heq2, hne2, hdig2⟩ := hocc2
          cases pre2 with
          | nil =>
            exfalso
            rw [List.nil_append] at heq2
            cases ds2 with
            | nil => exact hne2 rfl
            | cons d2 ds2' =>
              rw [List.cons_append] at heq2
              simp only [List.cons.injEq] at heq2
              have hdr : digitRun cs = (ds2', '%' :: suf2) :=
                heq2.2 ▸ digitRun_of_digits ds2' ('%' :: suf2)
                  (fun x hx => hdig2 x (List.mem_cons_of_mem d2 hx))
                  (by
                    intro x xs hx
                    have hx1 : x = '%' := by
                      simp only [List.cons.injEq] at hx
                      exact hx.1.symm
                    rw [hx1]; exact percent_not_digit)
              rw [hdr] at hp
              simp at hp
          | cons p2 ps2 =>
            have hcs2 : cs = ps2 ++ ds2 ++ '%' :: suf2 := by
              simp only [List.cons_append, List.cons.injEq] at heq2
              exact heq2.2
            exact Nat.succ_le_succ (hmin ps2 ds2 suf2 ⟨hcs2, hne2, hdig2⟩)
    · rw [firstPercentMatch, if_neg hd] at h
      obtain ⟨pre, suf, ⟨heq, hne, hdig⟩, hlast, hmin⟩ := ih h
      refine ⟨c :: pre, suf, ⟨by simp [heq], hne, hdig⟩, ?_, ?_⟩
      · intro x hx
        cases pre with
        | nil =>
          have hxc : c = x := by
            rw [show ([c] : List Char).getLast? = some c from rfl] at hx
            injection hx
          rw [← hxc]
          exact eq_false_of_ne_true hd
        | cons p ps =>
          rw [List.getLast?_cons_cons] at hx
          exact hlast x hx
      · intro pre2 ds2 suf2 hocc2
        obtain ⟨heq2, hne2, hdig2⟩ := hocc2
        cases pre2 with
        | nil =>
          exfalso
          rw [List.nil_append] at heq2
          cases ds2 with
          | nil => exact hne2 rfl
          | cons d2 ds2' =>
            rw [List.cons_append] at heq2
            simp only [List.cons.injEq] at heq2
            exact hd (heq2.1 ▸ hdig2 d2 (List.mem_cons_self d2 ds2'))
        | cons p2 ps2 =>
          have hcs2 : cs = ps2 ++ ds2 ++ '%' :: suf2 := by
            simp only [List.cons_append, List.cons.injEq] at heq2
            exact heq2.2
          exact Nat.succ_le_succ (hmin ps2 ds2 suf2 ⟨hcs2, hne2, hdig2⟩)

theorem hasPercent_isSome (l : List Char) (h : HasPercent l) :
    (firstPercentMatch l).isSome = true := by
  induction l with
  | nil =>
    obtain ⟨pre, ds, suf, heq, hne, _⟩ := h
    exfalso
    cases pre with
    | nil =>
      cases ds with
      | nil => exact hne rfl
      | cons d ds2 => simp at heq
    | cons p ps => simp at heq
  | cons c cs ih =>
    obtain ⟨pre, ds, suf, heq, hne, hdig⟩ := h
    rw [firstPercentMatch]
    by_cases hd : c.isDigit = true
    · by_cases hp : (digitRun cs).2.head? = some '%'
      · rw [if_pos hd, if_pos hp]
        rfl
      · rw [if_pos hd, if_neg hp]
        apply ih
        cases pre with
        | nil =>
          exfalso
          rw [List.nil_append] at heq
          cases ds with
          | nil => exact hne rfl
          | cons d2 ds2 =>
            simp only [List.cons_append, List.cons.injEq] at heq
            have hdr : digitRun cs = (ds2, '%' :: suf) :=
              heq.2 ▸ digitRun_of_digits ds2 ('%' :: suf)
                (fun x hx => hdig x (List.mem_cons_of_mem d2 hx))
                (by
                  intro x xs hx
                  have hx1 : x = '%' := by
                    simp only [List.cons.injEq] at hx
                    exact hx.1.symm
                  rw [hx1]; exact percent_not_digit)
            rw [hdr] at hp
            simp at hp
        | cons p ps =>
          simp only [List.cons_append, List.cons.injEq] at heq
          exact ⟨ps, ds, suf, heq.2, hne, hdig⟩
    · rw [if_neg hd]
      apply ih
      cases pre with
      | nil =>
        exfalso
        rw [List.nil_append] at heq
        cases ds with
        | nil => exact hne rfl
        | cons d2 ds2 =>
          simp only [List.cons_append, List.cons.injEq] at heq
          exact hd (heq.1 ▸ hdig d2 (List.mem_cons_self d2 ds2))
      | cons p ps =>
        simp only [List.cons_append, List.cons.injEq] at heq
        exact ⟨ps, ds, suf, heq.2, hne, hdig⟩

theorem not_hasPercent_of_none (l : List Char) (h : firstPercentMatch l = none) :
    ¬ HasPercent l := by
  intro hm
  have hs := hasPercent_isSome l hm
  rw [h] at hs
  simp at hs

/-- C1: for every raw text containing a digits-immediately-followed-by-percent
substring, percentage extraction returns exactly the digit run of the first
such occurrence; for every text with no such substring it returns the absent
marker "N/A"; in particular "The match is 62%" yields 62. -/
theorem percentage_extraction_spec (t : String) :
    (¬ HasPercent t.data → extract_percentage t = "N/A")
    ∧ (HasPercent t.data →
        ∃ ds, FirstPercent t.data ds ∧ extract_percentage t = String.mk ds)
    ∧ extract_percentage "The match is 62%" = "62" := by
  refine ⟨?_, ?_, by decide⟩
  · intro _
    cases he : firstPercentMatch t.data with
    | none => simp [extract_percentage, he]
    | some ds =>
      exfalso
      obtain ⟨pre, suf, hocc, _, _⟩ := firstPercentMatch_some _ _ he
      exact ‹¬ HasPercent t.data› ⟨pre, ds, suf, hocc⟩
  · intro hm
    cases he : firstPercentMatch t.data with
    | none => exact absurd hm (not_hasPercent_of_none _ he)
    | some ds =>
      exact ⟨ds, firstPercentMatch_some _ _ he, by simp [extract_percentage, he]⟩

theorem percentage_extraction_spec_witness : extract_percentage "abc" = "N/A" :=
  (percentage_extraction_spec "abc").1 (not_hasPercent_of_none _ (by decide))

/-- C7 counterexample: the backend text "The match is 150%" produces an
extracted percentage of 150, which is outside the range [0,100] the claim
asserts; the code applies no clamping or range validation. -/
theorem extracted_percentage_range_cex :
    extractedPercentageNat "The match is 150%" = some 150 ∧ ¬ (150 ≤ 100) := by
  constructor
  · decide
  · decide

/-- C7 amended: an analysis result's extracted percentage is present exactly
when the raw text contains a digits-then-percent substring, and when present
it equals the numeric value of the first digit run; the code does not
constrain the value to [0,100]. -/
theorem extracted_percentage_presence (t : String) :
    ((extractedPercentageNat t).isSome = true ↔ HasPercent t.data)
    ∧ ∀ n, extractedPercentageNat t = some n →
        ∃ ds, FirstPercent t.data ds ∧ n = digitsToNat ds := by
  constructor
  · constructor
    · intro h
      cases he : firstPercentMatch t.data with
      | none =>
        rw [extractedPercentageNat, he] at h
        simp at h
      | some ds =>
        obtain ⟨pre, suf, hocc, _, _⟩ := firstPercentMatch_some _ _ he
        exact ⟨pre, ds, suf, hocc⟩
    · intro hm
      have hs := hasPercent_isSome t.data hm
      rw [extractedPercentageNat]
      cases he : firstPercentMatch t.data with
      | none =>
        rw [he] at hs
        simp at hs
      | some ds => rfl
  · intro n hn
    rw [extractedPercentageNat] at hn
    cases he : firstPercentMatch t.data with
    | none =>
      rw [he] at hn
      simp at hn
    | some ds =>
      rw [he] at hn
      simp only [Option.map_some', Option.some.injEq] at hn
      exact ⟨ds, firstPercentMatch_some _ _ he, hn.symm⟩

theorem extracted_percentage_presence_witness :
    (extractedPercentageNat "The match is 62%").isSome = true :=
  (extracted_percentage_presence "The match is 62%").1.mpr
    ⟨"The match is ".data, ['6', '2'], [], by decide, by decide, by decide⟩

/-- C2: for every provider identifier other than the five configured
backends, main2.py's dispatch chain returns the invalid-selection message
immediately and its call log is empty — no backend of any provider is
invoked during that dispatch. -/
theorem unknown_provider_no_call (aiChoice : String) (backend : Provider → String)
    (h : aiChoice ∉ ["Gemini", "ChatGPT", "Claude", "Cohere", "HuggingFace"]) :
    main2_generate_ai_response aiChoice backend = ("❌ Invalid AI Selection", []) := by
  simp only [List.mem_cons, List.not_mem_nil, or_false, not_or] at h
  obtain ⟨h1, h2, h3, h4, h5⟩ := h
  simp [main2_generate_ai_response, h1, h2, h3, h4, h5]

theorem unknown_provider_no_call_witness :
    main2_generate_ai_response "unknown" (fun _ => "response") =
      ("❌ Invalid AI Selection", []) :=
  unknown_provider_no_call "unknown" (fun _ => "response") (by decide)

/-- C3 counterexample: in app3.py's get_gemini_response and appfinal.py's
analyze_with_gemini there is no try/except around the backend call, so a
backend error is returned to the caller as an error, not converted at the
point of origin into a displayable message. -/
theorem dispatch_error_uncaught_cex :
    app3_get_gemini_response "jd" "rt" "task" App3Lang.en false
        (fun _ => Except.error "boom") = Except.error "boom"
    ∧ appfinal_analyze_with_gemini "jd" "rt" "task" FinalLang.en
        (fun _ => Except.error "boom") = Except.error "boom" :=
  ⟨rfl, rfl⟩

/-- C3 amended: app2.py's get_gemini_response catches a backend error at the
point of origin and converts it into the displayable string "Error: ...";
file-extraction errors are caught and displayed inline in app2.py's
extract_text_from_file and at appfinal.py's Upload call site; no function
retries — each dispatch result depends only on the backend's response to the
single built prompt.  However, app3.py's get_gemini_response and appfinal.py's
analyze_with_gemini propagate backend errors to their callers uncaught. -/
theorem error_propagation_policy :
    (∀ jd rt task ep e (backend : String → Except String String),
        backend (app2_full_prompt jd rt task) = Except.error e →
        app2_get_gemini_response jd rt task ep backend = "Error: " ++ e)
    ∧ (∀ fileType parse e, (fileType = "pdf" ∨ fileType = "docx" ∨ fileType = "txt") →
        parse = Except.error e →
        app2_extract_text_from_file fileType parse =
          ExtractOutcome.displayedError ("Error processing file: " ++ e))
    ∧ (∀ ext parse e, appfinal_process_file ext parse = Except.error e →
        appfinal_upload_outcome ext parse =
          ExtractOutcome.displayedError ("Error: " ++ e))
    ∧ (∀ jd rt task ep (f g : String → Except String String),
        f (app2_full_prompt jd rt task) = g (app2_full_prompt jd rt task) →
        app2_get_gemini_response jd rt task ep f = app2_get_gemini_response jd rt task ep g)
    ∧ (∀ jd rt task lang ep (f g : String → Except String String),
        f (app3_full_prompt jd rt task lang) = g (app3_full_prompt jd rt task lang) →
        app3_get_gemini_response jd rt task lang ep f =
          app3_get_gemini_response jd rt task lang ep g)
    ∧ (∀ jd rt task lang (f g : String → Except String String),
        f (appfinal_full_prompt jd rt task lang) = g (appfinal_full_prompt jd rt task lang) →
        appfinal_analyze_with_gemini jd rt task lang f =
          appfinal_analyze_with_gemini jd rt task lang g) := by
  refine ⟨?_, ?_, ?_, ?_, ?_, ?_⟩
  · intro jd rt task ep e backend hb
    rw [app2_get_gemini_response, hb]
  · intro fileType parse e hft hp
    subst hp
    simp [app2_extract_text_from_file, hft]
  · intro ext parse e hp
    simp [appfinal_upload_outcome, hp]
  · intro jd rt task ep f g hfg
    rw [app2_get_gemini_response, app2_get_gemini_response, hfg]
  · intro jd rt task lang ep f g hfg
    rw [app3_get_gemini_response, app3_get_gemini_response, hfg]
  · intro jd rt task lang f g hfg
    rw [appfinal_analyze_with_gemini, appfinal_analyze_with_gemini, hfg]

theorem error_propagation_policy_witness :
    app2_get_gemini_response "jd" "rt" "task" false (fun _ => Except.error "boom") =
      "Error: " ++ "boom" :=
  error_propagation_policy.1 "jd" "rt" "task" false "boom" (fun _ => Except.error "boom") rfl

/-- C6: both dispatchers build exactly one prompt by concatenating, in fixed
order, the job description, the document text and the task instruction, and
the respond-in-language component is empty exactly when the requested
language is the English default; with the default language the prompt is the
bare concatenation with no language instruction. -/
theorem prompt_construction (jd rt task : String) (lang3 : App3Lang) (langF : FinalLang) :
    app3_full_prompt jd rt task lang3 =
      "\n    Job Description: " ++ jd ++ "\n    Resume: " ++ rt ++ "\n    Task: " ++ task ++
        "\n    " ++ app3_respond_suffix lang3 ++ "\n    "
    ∧ (app3_respond_suffix lang3 = "" ↔ lang3 = App3Lang.en)
    ∧ app3_full_prompt jd rt task App3Lang.en =
        "\n    Job Description: " ++ jd ++ "\n    Resume: " ++ rt ++ "\n    Task: " ++ task ++
          "\n    " ++ "" ++ "\n    "
    ∧ appfinal_full_prompt jd rt task langF =
        "\n    Job Description: " ++ jd ++ "\n    Resume: " ++ rt ++ "\n    Task: " ++ task ++
          " " ++ appfinal_lang_instruction langF ++ "\n    "
    ∧ (appfinal_lang_instruction langF = "" ↔ langF = FinalLang.en)
    ∧ appfinal_full_prompt jd rt task FinalLang.en =
        "\n    Job Description: " ++ jd ++ "\n    Resume: " ++ rt ++ "\n    Task: " ++ task ++
          " " ++ "" ++ "\n    " := by
  refine ⟨rfl, ?_, rfl, rfl, ?_, rfl⟩
  · cases lang3 <;> decide
  · cases langF <;> decide

/-- C10: when the backend succeeds with empty response text, app2.py's
get_gemini_response returns the literal sentinel "No response generated."
for every value of the extract_percent flag — so percentage extraction is
never applied to the empty text (extraction of "" would give "N/A") — and
the sentinel is indistinguishable from a genuine model output equal to that
same string. -/
theorem empty_response_sentinel :
    (∀ jd rt task ep, app2_get_gemini_response jd rt task ep (fun _ => Except.ok "") =
      "No response generated.")
    ∧ app2_get_gemini_response "" "" "" true (fun _ => Except.ok "") ≠ extract_percentage ""
    ∧ app2_get_gemini_response "" "" "" false (fun _ => Except.ok "No response generated.") =
        "No response generated." := by
  refine ⟨?_, by decide, rfl⟩
  intro jd rt task ep
  rfl

/-! Helper lemmas about page-text joining. -/

theorem foldl_append_data (pages : List (Option String)) :
    ∀ acc : String, (pages.foldl (fun text p => text ++ p.getD "") acc).data =
      acc.data ++ (pages.map (fun p => (p.getD "").data)).flatten := by
  induction pages with
  | nil => intro acc; simp
  | cons p ps ih =>
    intro acc
    simp only [List.foldl_cons, List.map_cons, List.flatten_cons]
    rw [ih (acc ++ p.getD ""), String.data_append, List.append_assoc]

theorem pyJoin_empty_data (l : List String) :
    (pyJoin "" l).data = (l.map String.data).flatten := by
  induction l with
  | nil => rfl
  | cons s rest ih =>
    cases rest with
    | nil => simp [pyJoin]
    | cons s2 rest2 =>
      rw [pyJoin]
      simp only [List.map_cons, List.flatten_cons]
      rw [String.data_append, String.data_append, ih]
      simp

theorem data_eq_nil_iff_empty (s : String) : s.data = [] → s = "" := by
  intro h
  exact String.ext (h.trans rfl)

theorem pyJoin_space_replicate_empty (n : Nat) :
    pyJoin " " (List.replicate (n + 2) "") = String.mk (List.replicate (n + 1) ' ') := by
  induction n with
  | zero => decide
  | succ m ih =>
    show pyJoin " " ("" :: "" :: List.replicate (m + 1) "") =
      String.mk (List.replicate (m + 2) ' ')
    rw [pyJoin]
    rw [show ("" :: List.replicate (m + 1) ("" : String)) = List.replicate (m + 2) "" from rfl]
    rw [ih]
    apply String.ext
    rw [String.data_append, String.data_append]
    simp [List.replicate_succ]

/-- C5 counterexample: appfinal.py's extract_pdf_text joins page texts with a
single-space separator, so a two-page document in which both page
extractions fail yields the string " ", not the empty string. -/
theorem pdf_all_fail_cex :
    appfinal_extract_pdf_text [none, none] = " "
    ∧ appfinal_extract_pdf_text [none, none] ≠ "" := by
  constructor
  · decide
  · decide

/-- C5 amended: app2.py's and app3.py's extractors return the plain
concatenation of the page texts in page order, with a failed page
contributing the empty string — in particular the empty string when every
page fails; appfinal.py's extractor instead joins the page texts with a
single space, so a document of n+2 failed pages yields n+1 spaces rather
than the empty string. -/
theorem pdf_page_concatenation :
    (∀ pages, (app2_extract_text_from_pdf pages).data =
      (pages.map (fun p => (p.getD "").data)).flatten)
    ∧ (∀ pages, (app3_extract_text_from_pdf pages).data =
      (pages.map (fun p => (p.getD "").data)).flatten)
    ∧ (∀ n, app2_extract_text_from_pdf (List.replicate n none) = ""
        ∧ app3_extract_text_from_pdf (List.replicate n none) = "")
    ∧ (∀ n, appfinal_extract_pdf_text (List.replicate (n + 2) none) =
        String.mk (List.replicate (n + 1) ' ')) := by
  have h2 : ∀ pages, (app2_extract_text_from_pdf pages).data =
      (pages.map (fun p => (p.getD "").data)).flatten := by
    intro pages
    rw [app2_extract_text_from_pdf, foldl_append_data pages ""]
    rfl
  have h3 : ∀ pages, (app3_extract_text_from_pdf pages).data =
      (pages.map (fun p => (p.getD "").data)).flatten := by
    intro pages
    rw [app3_extract_text_from_pdf, pyJoin_empty_data, List.map_map]
    rfl
  refine ⟨h2, h3, ?_, ?_⟩
  · intro n
    constructor
    · apply data_eq_nil_iff_empty
      rw [h2]
      simp
    · apply data_eq_nil_iff_empty
      rw [h3]
      simp
  · intro n
    rw [appfinal_extract_pdf_text]
    simp only [List.map_replicate, Option.getD_none]
    exact pyJoin_space_replicate_empty n

/-! Helper lemmas about the session score history. -/

theorem app3Hist_length (draw : Fin 10 → Nat) (s : List Nat)
    (h : App3HistReachable draw s) : 10 ≤ s.length := by
  induction h with
  | init => simp [app3_initial_scores]
  | append s t n _ _ ih =>
    rw [List.length_append]
    omega

theorem app3Hist_take (draw : Fin 10 → Nat) (s : List Nat)
    (h : App3HistReachable draw s) : s.take 10 = app3_initial_scores draw := by
  induction h with
  | init =>
    rw [app3_initial_scores]
    exact List.take_of_length_le (by simp)
  | append s t n hr _ ih =>
    rw [List.take_append_of_le_length (app3Hist_length draw s hr)]
    exact ih

/-- C4: the summary statistics of both variants are undefined on the empty
score list (numpy's max/min raise there, so no statistics value is
produced); appfinal.py's Advanced Analysis expander computes them only under
a nonempty-history guard; and app3.py's history, the argument of its
unguarded statistics call, is never empty on any reachable session state. -/
theorem empty_scores_stats_undefined :
    score_stats [] = none
    ∧ calculate_match_stats [] = none
    ∧ advanced_analysis_stats [] = none
    ∧ ∀ draw s, App3HistReachable draw s → s ≠ [] := by
  refine ⟨rfl, rfl, rfl, ?_⟩
  intro draw s h hnil
  have hl := app3Hist_length draw s h
  rw [hnil] at hl
  simp at hl

theorem empty_scores_stats_undefined_witness :
    app3_initial_scores (fun _ => 55) ≠ [] :=
  empty_scores_stats_undefined.2.2.2 (fun _ => 55) _ App3HistReachable.init

/-- C8 counterexample: app3.py initializes the session score history with
`list(np.random.randint(50, 95, 10))` — ten pseudorandom values (here a
draw of all 60s, inside randint's range), so the history does not start
empty. -/
theorem score_history_starts_nonempty_cex :
    App3HistReachable (fun _ => 60) (app3_initial_scores (fun _ => 60))
    ∧ app3_initial_scores (fun _ => 60) ≠ [] :=
  ⟨App3HistReachable.init, by decide⟩

/-- C8 amended: appfinal.py's score history starts empty and every element
of a reachable state is an extracted percentage value; app3.py's history
instead starts with ten pseudorandom integers, each in [50,94] whenever the
random draw respects randint's [50,95) bounds.  In both variants the history
is append-only: on every reachable app3 state the first ten elements are
exactly the initial list, unmodified.  Appended values are extracted digit
runs, which rule 8's [0,100] bound does not constrain (see the C7
counterexample). -/
theorem score_history_evolution :
    FinalScoresReachable []
    ∧ (∀ s, FinalScoresReachable s → ∀ x ∈ s, ∃ t, extractedPercentageNat t = some x)
    ∧ (∀ draw s, App3HistReachable draw s → s.take 10 = app3_initial_scores draw)
    ∧ (∀ draw, (∀ i, 50 ≤ draw i ∧ draw i < 95) →
        ∀ x ∈ app3_initial_scores draw, 50 ≤ x ∧ x ≤ 94) := by
  refine ⟨FinalScoresReachable.init, ?_, app3Hist_take, ?_⟩
  · intro s h
    induction h with
    | init => intro x hx; simp at hx
    | append s t n _ hext ih =>
      intro x hx
      rcases List.mem_append.mp hx with hx | hx
      · exact ih x hx
      · have hxn : x = n := by simpa using hx
        exact ⟨t, hxn ▸ hext⟩
  · intro draw hdraw x hx
    rw [app3_initial_scores] at hx
    obtain ⟨i, hi⟩ := (List.mem_ofFn draw x).mp hx
    have := hdraw i
    omega

theorem score_history_evolution_witness :
    (app3_initial_scores (fun _ => 60) ++ [70]).take 10 = app3_initial_scores (fun _ => 60) :=
  score_history_evolution.2.2.1 (fun _ => 60) _
    (App3HistReachable.append _ "70%" 70 App3HistReachable.init (by decide))

/-! Helper lemmas for UTF-8 round-tripping. -/

theorem utf8Decode_encodeChar (c : Nat) (rest : List Nat)
    (h : c < 55296 ∨ (57343 < c ∧ c < 1114112)) :
    utf8DecodeAux none (utf8EncodeChar c ++ rest) =
      (utf8DecodeAux none rest).map (fun r => c :: r) := by
  by_cases h1 : c < 0x80
  · rw [utf8EncodeChar, if_pos h1, List.cons_append, List.nil_append]
    rw [utf8DecodeAux]
    rw [if_pos h1]
  · by_cases h2 : c < 0x800
    · rw [utf8EncodeChar, if_neg h1, if_pos h2, List.cons_append, List.cons_append,
        List.nil_append]
      rw [utf8DecodeAux, if_neg (by omega), if_neg (by omega), if_pos (by omega)]
      rw [utf8DecodeAux, if_pos (by omega : 0x80 ≤ 0x80 + c % 64 ∧ 0x80 + c % 64 < 0xC0),
        if_pos rfl, if_pos (by omega)]
      have hv : (0xC0 + c / 64 - 0xC0) * 64 + (0x80 + c % 64 - 0x80) = c := by omega
      rw [hv]
    · by_cases h3 : c < 0x10000
      · rw [utf8EncodeChar, if_neg h1, if_neg h2, if_pos h3, List.cons_append,
          List.cons_append, List.cons_append, List.nil_append]
        rw [utf8DecodeAux, if_neg (by omega), if_neg (by omega), if_neg (by omega),
          if_pos (by omega)]
        rw [utf8DecodeAux,
          if_pos (by omega : 0x80 ≤ 0x80 + c / 64 % 64 ∧ 0x80 + c / 64 % 64 < 0xC0),
          if_neg (by omega)]
        have hacc : (0xE0 + c / 4096 - 0xE0) * 64 + (0x80 + c / 64 % 64 - 0x80) = c / 64 := by
          omega
        rw [hacc]
        rw [utf8DecodeAux, if_pos (by omega : 0x80 ≤ 0x80 + c % 64 ∧ 0x80 + c % 64 < 0xC0),
          if_pos rfl]
        have hv : c / 64 * 64 + (0x80 + c % 64 - 0x80) = c := by omega
        rw [hv]
        rw [if_pos (by rcases h with h | h <;> omega)]
      · have h4 : c < 1114112 := by rcases h with h | h <;> omega
        rw [utf8EncodeChar, if_neg h1, if_neg h2, if_neg h3, List.cons_append,
          List.cons_append, List.cons_append, List.cons_append, List.nil_append]
        rw [utf8DecodeAux, if_neg (by omega), if_neg (by omega), if_neg (by omega),
          if_neg (by omega), if_pos (by omega)]
        rw [utf8DecodeAux,
          if_pos (by omega : 0x80 ≤ 0x80 + c / 4096 % 64 ∧ 0x80 + c / 4096 % 64 < 0xC0),
          if_neg (by omega)]
        have hacc : (0xF0 + c / 262144 - 0xF0) * 64 + (0x80 + c / 4096 % 64 - 0x80) =
            c / 4096 := by
          omega
        rw [hacc]
        rw [utf8DecodeAux,
          if_pos (by omega : 0x80 ≤ 0x80 + c / 64 % 64 ∧ 0x80 + c / 64 % 64 < 0xC0),
          if_neg (by omega)]
        have hacc2 : c / 4096 * 64 + (0x80 + c / 64 % 64 - 0x80) = c / 64 := by omega
        rw [hacc2]
        rw [utf8DecodeAux, if_pos (by omega : 0x80 ≤ 0x80 + c % 64 ∧ 0x80 + c % 64 < 0xC0),
          if_pos rfl]
        have hv : c / 64 * 64 + (0x80 + c % 64 - 0x80) = c := by omega
        rw [hv]
        rw [if_pos (by omega)]

theorem utf8Decode_utf8Encode (cs : List Nat)
    (h : ∀ c ∈ cs, c < 55296 ∨ (57343 < c ∧ c < 1114112)) :
    utf8Decode (utf8Encode cs) = some cs := by
  induction cs with
  | nil => rfl
  | cons c cs2 ih =>
    rw [utf8Encode, utf8Decode]
    rw [utf8Decode_encodeChar c (utf8Encode cs2) (h c (List.mem_cons_self c cs2))]
    rw [utf8Decode] at ih
    rw [ih (fun x hx => h x (List.mem_cons_of_mem c hx))]
    rfl

theorem char_scalar_valid (c : Char) :
    c.toNat < 55296 ∨ (57343 < c.toNat ∧ c.toNat < 1114112) := by
  have hv := c.valid
  rcases hv with hv | hv
  · left; exact hv
  · right; exact hv

/-- C9: for every plain-text document that is the UTF-8 encoding of a
string, both txt extractors return exactly the decoded scalar-value
sequence of that string, with no characters added, removed or altered —
extraction is the identity decode round-trip. -/
theorem txt_utf8_roundtrip (s : String) :
    app2_extract_text_from_txt (utf8Encode (strScalars s)) = some (strScalars s)
    ∧ appfinal_extract_txt_text (utf8Encode (strScalars s)) = some (strScalars s) := by
  have hvalid : ∀ c ∈ strScalars s, c < 55296 ∨ (57343 < c ∧ c < 1114112) := by
    intro c hc
    rw [strScalars] at hc
    obtain ⟨ch, _, hch⟩ := List.mem_map.mp hc
    exact hch ▸ char_scalar_valid ch
  exact ⟨utf8Decode_utf8Encode (strScalars s) hvalid,
    utf8Decode_utf8Encode (strScalars s) hvalid⟩
